import Mathlib

/-!
Verification development for the marketing analytics + RAG repository.

The Python sources are shallowly embedded:
* `data_processor.py` — per-row derived metrics (`load_and_process_campaigns`),
  channel aggregation (`aggregate_by_channel`), and best-channel selection
  (`get_best_channel_by_roas`).  Numeric columns (coerced to float by the
  code) are modelled as exact rationals; the `np.nan` sentinel produced by the
  `np.where` zero-division guards is modelled as `Option.none`.
* `rag_engine.py` — the `MarketingRAG` class: knowledge-base construction,
  loading, retrieval and answer assembly.  The external collaborators
  (HuggingFace embeddings, the Chroma vector store) are modelled as opaque
  data supplied by the caller / environment, exactly as the spec directs.
* The text chunking step is performed by the external
  `RecursiveCharacterTextSplitter`; its algorithm is modelled from the spec
  (see `chunksCore`).
-/

namespace MarketingRag

/-! ## data_processor.py — data model -/

/-- One row of the campaigns table after `pd.read_csv` and the explicit
`astype(float)` coercions in `load_and_process_campaigns`
(src/data_processor.py lines 32–39).  Floats are modelled as exact
rationals; the date column is never used by the arithmetic and is omitted. -/
structure RawRecord where
  channel : String
  spend_BRL : Rat
  revenue_BRL : Rat
  impressions : Rat
  clicks : Rat
  conversions : Rat
  deriving DecidableEq, Repr

/-- A campaigns row after `load_and_process_campaigns` has added the derived
columns `cpa_BRL`, `roas`, `ctr`.  The `np.nan` sentinel used for guarded
zero division is modelled as `none`. -/
structure ProcessedRecord where
  channel : String
  spend_BRL : Rat
  revenue_BRL : Rat
  impressions : Rat
  clicks : Rat
  conversions : Rat
  cpa_BRL : Option Rat
  roas : Option Rat
  ctr : Option Rat
  deriving DecidableEq, Repr

/-- The `np.where(denom > 0, num / denom, np.nan)` guard pattern used for all
three derived metrics in `data_processor.py`. -/
def guardedDiv (num denom : Rat) : Option Rat :=
  if 0 < denom then some (num / denom) else none

/-- The metric-derivation part of `load_and_process_campaigns`
(src/data_processor.py lines 42–58) applied to one row:
`cpa_BRL = spend/conversions`, `roas = revenue/spend`, `ctr =
clicks/impressions`, each guarded by `np.where(denom > 0, ..., np.nan)`. -/
def deriveMetrics (r : RawRecord) : ProcessedRecord :=
  { channel := r.channel
    spend_BRL := r.spend_BRL
    revenue_BRL := r.revenue_BRL
    impressions := r.impressions
    clicks := r.clicks
    conversions := r.conversions
    cpa_BRL := guardedDiv r.spend_BRL r.conversions
    roas := guardedDiv r.revenue_BRL r.spend_BRL
    ctr := guardedDiv r.clicks r.impressions }

/-- `load_and_process_campaigns` after the external CSV load: the DataFrame is
a list of rows and the three `np.where` column assignments act row-wise.
The CSV reading itself is an external collaborator (spec §6) and is modelled
by handing the function the already-parsed rows. -/
def load_and_process_campaigns (rows : List RawRecord) : List ProcessedRecord :=
  rows.map deriveMetrics

/-! ## data_processor.py — aggregation -/

/-- One row of the output of `aggregate_by_channel`: summed counters plus the
re-derived metrics. -/
structure ChannelAggregate where
  channel : String
  spend_BRL : Rat
  revenue_BRL : Rat
  impressions : Rat
  clicks : Rat
  conversions : Rat
  cpa_BRL : Option Rat
  roas : Option Rat
  ctr : Option Rat
  deriving DecidableEq, Repr

/-- Sum of a numeric column over a list of rows. -/
def colSum (f : ProcessedRecord → Rat) (rows : List ProcessedRecord) : Rat :=
  (rows.map f).sum

/-- Lexicographic comparison of character lists by code point, the order
pandas uses on string group keys. -/
def charsLe : List Char → List Char → Bool
  | [], _ => true
  | _ :: _, [] => false
  | a :: as, b :: bs =>
    if a.val < b.val then true
    else if b.val < a.val then false
    else charsLe as bs

/-- Lexicographic string comparison (on the underlying characters). -/
def strLe (a b : String) : Bool := charsLe a.data b.data

/-- Insert a key into an ascending list of keys. -/
def insertKey (s : String) : List String → List String
  | [] => [s]
  | t :: ts => if strLe s t then s :: t :: ts else t :: insertKey s ts

/-- Insertion sort of group keys into ascending order. -/
def sortKeys : List String → List String
  | [] => []
  | s :: ss => insertKey s (sortKeys ss)

/-- The distinct elements of a key list. -/
def distinctKeys : List String → List String
  | [] => []
  | s :: ss =>
    let rest := distinctKeys ss
    if s ∈ rest then rest else s :: rest

/-- The distinct channel labels of a frame, in the sorted order produced by
`df.groupby("channel")` (pandas sorts group keys by default). -/
def groupKeys (rows : List ProcessedRecord) : List String :=
  sortKeys (distinctKeys (rows.map (fun r => r.channel)))

/-- The `groupby("channel").agg(... "sum" ...)` step of `aggregate_by_channel`
for a single channel label: sums each counter over the rows of that group.
The derived columns do not exist yet at this point of the function body. -/
def groupSums (rows : List ProcessedRecord) (ch : String) : ChannelAggregate :=
  let g := rows.filter (fun r => r.channel = ch)
  { channel := ch
    spend_BRL := colSum (fun r => r.spend_BRL) g
    revenue_BRL := colSum (fun r => r.revenue_BRL) g
    impressions := colSum (fun r => r.impressions) g
    clicks := colSum (fun r => r.clicks) g
    conversions := colSum (fun r => r.conversions) g
    cpa_BRL := none
    roas := none
    ctr := none }

/-- The three `np.where` column assignments on `grouped`
(src/data_processor.py lines 86–102), re-deriving the metrics from the
summed totals. -/
def setDerived (a : ChannelAggregate) : ChannelAggregate :=
  { a with
    cpa_BRL := guardedDiv a.spend_BRL a.conversions
    roas := guardedDiv a.revenue_BRL a.spend_BRL
    ctr := guardedDiv a.clicks a.impressions }

/-- `aggregate_by_channel` (src/data_processor.py lines 63–104): group rows by
channel, sum the raw counters per group, then recompute `cpa_BRL`, `roas`,
`ctr` from the group totals with the same zero-division guards. -/
def aggregate_by_channel (rows : List ProcessedRecord) : List ChannelAggregate :=
  (groupKeys rows).map (fun ch => setDerived (groupSums rows ch))

/-! ## data_processor.py — best channel -/

/-- `Series.idxmax` over an optional-valued column, with `none` playing the
role of `NaN` (skipped, as pandas does with `skipna=True`).  Returns the
index and value of the first occurrence of the maximum among the defined
entries, or `none` when no entry is defined — pandas raises in that case. -/
def idxmax : List (Option Rat) → Option (Nat × Rat)
  | [] => none
  | none :: rest => (idxmax rest).map (fun p => (p.1 + 1, p.2))
  | some v :: rest =>
    match (idxmax rest).map (fun p => (p.1 + 1, p.2)) with
    | none => some (0, v)
    | some p => if v < p.2 then some p else some (0, v)

/-- `get_best_channel_by_roas` (src/data_processor.py lines 107–125): pick the
row at `df["roas"].idxmax()` and return its channel and roas value.  The
input is typed, so the column-presence check on lines 121–122 always passes;
an empty or all-`NaN` roas column makes `idxmax` fail, which pandas reports
as a raised `ValueError`, modelled as `Except.error`. -/
def get_best_channel_by_roas (rows : List ChannelAggregate) :
    Except String (String × Rat) :=
  match idxmax (rows.map (fun r => r.roas)) with
  | none => .error "attempt to get argmax of an empty sequence"
  | some p =>
    match rows[p.1]? with
    | some best => .ok (best.channel, p.2)
    | none => .error "index out of bounds"

/-- Two rows on the same channel whose ratio-of-sums differs from the mean of
their per-row ratios (the spec's own synthetic counterexample shape). -/
def exRow1 : ProcessedRecord :=
  deriveMetrics
    { channel := "google", spend_BRL := 100, revenue_BRL := 400,
      impressions := 1000, clicks := 50, conversions := 10 }

/-- Companion row to `exRow1`; see there. -/
def exRow2 : ProcessedRecord :=
  deriveMetrics
    { channel := "google", spend_BRL := 300, revenue_BRL := 300,
      impressions := 1000, clicks := 50, conversions := 10 }

/-! ## Text chunking -/

/-- Modelled from the spec: the chunk-splitting algorithm of §4.4 is executed
by the external `RecursiveCharacterTextSplitter` (configured in
`build_knowledge_base`, src/rag_engine.py lines 43–47, with
`chunk_size=500`, `chunk_overlap=50` and separators paragraph, line,
sentence dot, space); its body is not part of this repository, so the
splitting policy is taken from the spec's words.  `lastEnd pat w` is the
position just after the last occurrence of `pat` inside `w`, the rightmost
cut point of one boundary type within the size budget. -/
def lastEnd (pat w : List Char) : Option Nat :=
  (List.range (w.length + 1)).reverse.find?
    (fun j => decide (pat.length ≤ j) &&
      decide ((w.drop (j - pat.length)).take pat.length = pat))

/-- Modelled from the spec: the ordered boundary preference of §4.4 —
paragraph boundary, then line boundary, then sentence-ending punctuation,
then generic whitespace — matching the separator list
`["\n\n", "\n", ".", " "]` configured in `build_knowledge_base`. -/
def boundaryCut (w : List Char) : Option Nat :=
  match lastEnd [Char.ofNat 10, Char.ofNat 10] w with
  | some j => some j
  | none =>
    match lastEnd [Char.ofNat 10] w with
    | some j => some j
    | none =>
      match lastEnd [Char.ofNat 46] w with
      | some j => some j
      | none => lastEnd [Char.ofNat 32] w

/-- Modelled from the spec: length of the greedy next chunk — the largest
prefix within the 500-unit budget, snapped to the best available boundary,
falling back to a hard cut at 500 when no boundary exists in the window. -/
def cutLen (s : List Char) : Nat :=
  match boundaryCut (s.take 500) with
  | some j => j
  | none => 500

/-- Modelled from the spec: the chunk sequence of §4.4.  A document shorter
than the maximum size yields one chunk, an empty document yields none;
otherwise the greedy cut is taken and the next chunk starts 50 units (the
overlap) before the cut, clamped so the scan always advances.  The fuel
argument (instantiated with the text length by `chunks`) makes the
recursion structural; each step consumes at least one character. -/
def chunksCore : Nat → List Char → List (List Char)
  | 0, _ => []
  | fuel + 1, s =>
    if s.length = 0 then []
    else if s.length ≤ 500 then [s]
    else
      let q := cutLen s
      s.take q :: chunksCore fuel (s.drop (q - min 50 (q - 1)))

/-- Modelled from the spec: chunking of one document's text. -/
def chunks (s : List Char) : List (List Char) :=
  chunksCore s.length s

/-- The `splitter.split_text(text)` call in `build_knowledge_base`, on
`String`s. -/
def split_text (s : String) : List String :=
  (chunks s.data).map String.mk

/-! ## rag_engine.py — data model and external collaborators -/

/-- A document/chunk metadata mapping (a Python dict). -/
abbrev Metadata := List (String × String)

/-- `langchain.schema.Document`: a chunk text plus its metadata. -/
structure Document where
  page_content : String
  metadata : Metadata
  deriving DecidableEq, Repr

/-- The Chroma vector store, an opaque external collaborator (spec §1, §6):
it holds the indexed documents and answers ranked similarity queries.
`search` models the internal scored search; `Chroma.similarity_search`
returns the documents of `search` with the scores dropped. -/
structure VectorStore where
  docs : List Document
  search : String → Nat → List (Document × Rat)

/-- `vectorstore.similarity_search(query, k)`: ranked documents, scores
discarded. -/
def similarity_search (vs : VectorStore) (q : String) (k : Nat) : List Document :=
  (vs.search q k).map (fun p => p.1)

/-- The store Chroma yields for a persist directory holding no prior index:
a freshly created, empty collection. -/
def emptyVectorStore : VectorStore :=
  { docs := [], search := fun _ _ => [] }

/-- The durable storage the Chroma constructor reads: what (if anything) has
been persisted at each location. -/
structure ChromaEnv where
  persisted : String → Option VectorStore

/-- The `Chroma(embedding_function=..., persist_directory=...)` constructor:
restores the collection persisted at the location, or creates a fresh empty
one when nothing is there — it never fails. -/
def chromaOpen (env : ChromaEnv) (loc : String) : VectorStore :=
  (env.persisted loc).getD emptyVectorStore

/-- The `MarketingRAG` object state: the persist directory fixed by
`__init__` and the `vectorstore` attribute, `None` until a build or load. -/
structure MarketingRAG where
  persist_directory : String
  vectorstore : Option VectorStore

/-- `MarketingRAG.__init__`: records the persist directory and sets
`self.vectorstore = None` (the `os.makedirs` side effect touches only the
file system). -/
def MarketingRAG.mkInitial (persist_directory : String) : MarketingRAG :=
  { persist_directory := persist_directory, vectorstore := none }

/-! ## rag_engine.py — operations -/

/-- The document-collection phase of `build_knowledge_base`
(src/rag_engine.py lines 40–52): default metadatas to one empty dict per
text, then for `text, meta in zip(texts, metadatas)` append one `Document`
per chunk of `text`, carrying `meta`. -/
def buildDocs (texts : List String) (metadatas : Option (List Metadata)) :
    List Document :=
  let metas :=
    match metadatas with
    | none => texts.map (fun _ => ([] : Metadata))
    | some m => m
  (texts.zip metas).flatMap
    (fun tm => (split_text tm.1).map
      (fun c => { page_content := c, metadata := tm.2 }))

/-- `build_knowledge_base` (src/rag_engine.py lines 29–58): chunk and wrap
the texts, then set `self.vectorstore` to the result of the external
`Chroma.from_documents` (passed in as `fromDocs`). -/
def build_knowledge_base (fromDocs : List Document → VectorStore)
    (m : MarketingRAG) (texts : List String)
    (metadatas : Option (List Metadata)) : MarketingRAG :=
  { m with vectorstore := some (fromDocs (buildDocs texts metadatas)) }

/-- `load_existing_knowledge_base` (src/rag_engine.py lines 60–67): set
`self.vectorstore` to a Chroma opened on the persist directory.  There is
no existence check and the constructor cannot fail. -/
def load_existing_knowledge_base (env : ChromaEnv) (m : MarketingRAG) :
    MarketingRAG :=
  { m with vectorstore := some (chromaOpen env m.persist_directory) }

/-- `retrieve` (src/rag_engine.py lines 69–75): raise `ValueError` when
`self.vectorstore is None`, else delegate to `similarity_search`. -/
def retrieve (m : MarketingRAG) (q : String) (k : Nat) :
    Except String (List Document) :=
  match m.vectorstore with
  | none => .error "Vectorstore nao inicializado. Chame build_knowledge_base ou load_existing_knowledge_base primeiro."
  | some vs => .ok (similarity_search vs q k)

/-- The fixed closing text of `answer`. -/
def resumoText : String :=
  "Resumo: com base nos trechos acima, analise manualmente o melhor canal, campanha ou insight de marketing."

/-- `answer` (src/rag_engine.py lines 77–90): retrieve, join the page
contents with the separator, and format one plain string. -/
def answer (m : MarketingRAG) (q : String) (k : Nat) : Except String String :=
  (retrieve m q k).map (fun docs =>
    let context := String.intercalate "\n---\n" (docs.map (fun d => d.page_content))
    "Pergunta: " ++ q ++ "\n\n" ++ "Contexto relevante encontrado:\n" ++
      context ++ "\n\n" ++ resumoText)

/-! ## A store-passing model of `aggregate_by_channel` (for the frame
condition): pandas DataFrames are heap objects, so the body of the function
is replayed against an explicit store of frames.  `groupby(...).agg(...)
.reset_index()` allocates a fresh frame; the three column assignments write
to that fresh frame only. -/

/-- A heap-allocated pandas DataFrame: either a per-row campaigns frame or an
aggregated frame. -/
inductive Frame where
  | rows : List ProcessedRecord → Frame
  | aggs : List ChannelAggregate → Frame
  deriving DecidableEq, Repr

/-- The heap of live DataFrames; references are indices. -/
abbrev FrameStore := List Frame

def readFrame (st : FrameStore) (r : Nat) : Option Frame := st[r]?

def allocFrame (st : FrameStore) (f : Frame) : FrameStore × Nat :=
  (st ++ [f], st.length)

/-- An in-place column assignment on an aggregated frame. -/
def updateAggs (st : FrameStore) (r : Nat)
    (f : List ChannelAggregate → List ChannelAggregate) : FrameStore :=
  match readFrame st r with
  | some (.aggs l) => st.set r (.aggs (f l))
  | _ => st

/-- `grouped["cpa_BRL"] = np.where(...)` (src/data_processor.py lines 86–90). -/
def setCpaCol (l : List ChannelAggregate) : List ChannelAggregate :=
  l.map (fun a => { a with cpa_BRL := guardedDiv a.spend_BRL a.conversions })

/-- `grouped["roas"] = np.where(...)` (src/data_processor.py lines 92–96). -/
def setRoasCol (l : List ChannelAggregate) : List ChannelAggregate :=
  l.map (fun a => { a with roas := guardedDiv a.revenue_BRL a.spend_BRL })

/-- `grouped["ctr"] = np.where(...)` (src/data_processor.py lines 98–102). -/
def setCtrCol (l : List ChannelAggregate) : List ChannelAggregate :=
  l.map (fun a => { a with ctr := guardedDiv a.clicks a.impressions })

/-- The statement sequence of `aggregate_by_channel` replayed on the frame
store: read the argument frame, allocate `grouped` fresh, assign the three
derived columns in place on `grouped`, return its reference. -/
def aggregate_by_channel_prog (st : FrameStore) (dfRef : Nat) :
    FrameStore × Nat :=
  let dfRows :=
    match readFrame st dfRef with
    | some (.rows l) => l
    | _ => []
  let p := allocFrame st (.aggs ((groupKeys dfRows).map (groupSums dfRows)))
  let st2 := updateAggs p.1 p.2 setCpaCol
  let st3 := updateAggs st2 p.2 setRoasCol
  let st4 := updateAggs st3 p.2 setCtrCol
  (st4, p.2)

/-! ## Concrete instances used in counterexamples and witnesses -/

/-- An environment in which no index has ever been persisted anywhere. -/
def envNoPersist : ChromaEnv := ⟨fun _ => none⟩

/-- A one-chunk document for the retrieval examples. -/
def exDoc : Document := { page_content := "google ads performance", metadata := [] }

/-- A store whose ranked search returns `exDoc` with a high similarity score. -/
def storeHighScore : VectorStore :=
  { docs := [exDoc], search := fun _ _ => [(exDoc, 9/10)] }

/-- Identical to `storeHighScore` except for the similarity score. -/
def storeLowScore : VectorStore :=
  { docs := [exDoc], search := fun _ _ => [(exDoc, 1/10)] }

/-- A `MarketingRAG` whose knowledge base is `storeHighScore`. -/
def ragHigh : MarketingRAG :=
  { persist_directory := "chroma_db", vectorstore := some storeHighScore }

/-- A `MarketingRAG` whose knowledge base is `storeLowScore`. -/
def ragLow : MarketingRAG :=
  { persist_directory := "chroma_db", vectorstore := some storeLowScore }

/-- A campaigns row in which every ratio denominator is zero. -/
def zeroDenomRow : RawRecord := ⟨"Google", 0, 5, 0, 2, 0⟩

/-- A three-row aggregated table whose maximal `roas` (5) is shared by the
second and third rows — the tie case left open by the spec. -/
def tieTable : List ChannelAggregate :=
  [⟨"A", 10, 20, 0, 0, 0, none, some 2, none⟩,
   ⟨"B", 10, 50, 0, 0, 0, none, some 5, none⟩,
   ⟨"C", 2, 10, 0, 0, 0, none, some 5, none⟩]

/-- The first chunk the spec-modelled splitter emits on a non-empty text. -/
def firstChunk (s : List Char) : List Char :=
  if s.length ≤ 500 then s else s.take (cutLen s)

/-- The overlap contract between two consecutive chunks: whenever the earlier
chunk was cut beyond the overlap width and the later chunk is at least the
overlap wide, the later chunk starts with exactly the 50 units that end the
earlier one. -/
def overlapOk (a b : List Char) : Prop :=
  50 < a.length → 50 ≤ b.length → b.take 50 = a.drop (a.length - 50)

/-! ## Lemmas about `idxmax` -/

theorem idxmax_none_iff {l : List (Option Rat)} :
    idxmax l = none ↔ ∀ x ∈ l, x = none := by
  induction l with
  | nil => simp [idxmax]
  | cons x rest ih =>
    cases x with
    | none =>
      simp only [idxmax, Option.map_eq_none]
      simp [ih]
    | some v =>
      rcases hr : (idxmax rest).map (fun p => (p.1 + 1, p.2)) with _ | p
      · simp [idxmax, hr]
      · simp only [idxmax, hr]
        constructor
        · intro h
          split at h <;> simp_all
        · intro h
          exact absurd (h (some v) (List.mem_cons_self _ _)) (by simp)

theorem idxmax_spec {l : List (Option Rat)} {j : Nat} {w : Rat}
    (h : idxmax l = some (j, w)) :
    l[j]? = some (some w) ∧
    (∀ (k : Nat) (x : Rat), l[k]? = some (some x) → x ≤ w) ∧
    (∀ k : Nat, k < j → l[k]? ≠ some (some w)) := by
  induction l generalizing j w with
  | nil => simp [idxmax] at h
  | cons y rest ih =>
    cases y with
    | none =>
      rw [idxmax] at h
      rcases Option.map_eq_some'.mp h with ⟨⟨j', w'⟩, hr, he⟩
      simp only at he
      cases he
      obtain ⟨h1, h2, h3⟩ := ih hr
      refine ⟨by simpa using h1, ?_, ?_⟩
      · intro k x hk
        match k, hk with
        | 0, hk => simp at hk
        | k + 1, hk => exact h2 k x (by simpa using hk)
      · intro k hk
        match k with
        | 0 => simp
        | k + 1 => exact fun hc => h3 k (by omega) (by simpa using hc)
    | some v =>
      rw [idxmax] at h
      rcases hr : (idxmax rest).map (fun p => (p.1 + 1, p.2)) with _ | ⟨j', w'⟩
      · rw [hr] at h
        simp only [Option.some.injEq, Prod.mk.injEq] at h
        obtain ⟨hj, hw⟩ := h
        subst hj; subst hw
        have hnone : idxmax rest = none := by
          by_contra hne
          rcases Option.ne_none_iff_exists'.mp hne with ⟨p, hp⟩
          simp [hp] at hr
        have hall := idxmax_none_iff.mp hnone
        refine ⟨by simp, ?_, by omega⟩
        intro k x hk
        match k, hk with
        | 0, hk =>
          simp only [List.getElem?_cons_zero, Option.some.injEq] at hk
          cases hk; exact le_refl _
        | k + 1, hk =>
          have hmem : (some x) ∈ rest := List.getElem?_mem (by simpa using hk)
          exact absurd (hall _ hmem) (by simp)
      · rw [hr] at h
        rcases Option.map_eq_some'.mp hr with ⟨⟨j0, w0⟩, hr0, he0⟩
        simp only at he0
        injection he0 with e1 e2
        subst e1; subst e2
        obtain ⟨h1, h2, h3⟩ := ih hr0
        simp only at h
        by_cases hv : v < w0
        · rw [if_pos hv] at h
          simp only [Option.some.injEq, Prod.mk.injEq] at h
          obtain ⟨rfl, rfl⟩ := h
          refine ⟨by simpa using h1, ?_, ?_⟩
          · intro k x hk
            match k, hk with
            | 0, hk =>
              simp only [List.getElem?_cons_zero, Option.some.injEq] at hk
              cases hk; exact le_of_lt hv
            | k + 1, hk => exact h2 k x (by simpa using hk)
          · intro k hk
            match k with
            | 0 =>
              simp only [List.getElem?_cons_zero, ne_eq, Option.some.injEq]
              intro hc; cases hc; exact absurd hv (lt_irrefl _)
            | k + 1 => exact fun hc => h3 k (by omega) (by simpa using hc)
        · rw [if_neg hv] at h
          simp only [Option.some.injEq, Prod.mk.injEq] at h
          obtain ⟨rfl, rfl⟩ := h
          refine ⟨by simp, ?_, by omega⟩
          intro k x hk
          match k, hk with
          | 0, hk =>
            simp only [List.getElem?_cons_zero, Option.some.injEq] at hk
            cases hk; exact le_refl _
          | k + 1, hk => exact le_trans (h2 k x (by simpa using hk)) (le_of_not_lt hv)

/-! ## List helper lemmas -/

theorem zip_eq_zip_take {α β : Type} : ∀ {m : List β} {l : List α},
    m.length ≤ l.length → l.zip m = (l.take m.length).zip m
  | [], l, _ => by simp
  | b :: bs, [], h => by simp at h
  | b :: bs, a :: as, h => by
    simp only [List.zip_cons_cons, List.length_cons, List.take_succ_cons]
    rw [zip_eq_zip_take (m := bs) (l := as) (by simpa using h)]

theorem zip_self_map {α β : Type} (g : α → β) :
    ∀ l : List α, l.zip (l.map g) = l.map (fun a => (a, g a))
  | [] => by simp
  | a :: as => by
    simp only [List.map_cons, List.zip_cons_cons]
    rw [zip_self_map g as]

theorem flatMap_map_comp {α β γ : Type} (f : α → β) (g : β → List γ) :
    ∀ l : List α, (l.map f).flatMap g = l.flatMap (fun a => g (f a))
  | [] => by simp
  | a :: as => by
    simp only [List.map_cons, List.flatMap_cons]
    rw [flatMap_map_comp f g as]

/-! ## Lemmas about the spec-modelled chunker -/

theorem lastEnd_bounds {pat w : List Char} {j : Nat}
    (h : lastEnd pat w = some j) : pat.length ≤ j ∧ j ≤ w.length := by
  unfold lastEnd at h
  have hmem := List.mem_of_find?_eq_some h
  have hpred := List.find?_some h
  rw [List.mem_reverse, List.mem_range] at hmem
  simp only [Bool.and_eq_true, decide_eq_true_eq] at hpred
  exact ⟨hpred.1, by omega⟩

theorem boundaryCut_bounds {w : List Char} {j : Nat}
    (h : boundaryCut w = some j) : 1 ≤ j ∧ j ≤ w.length := by
  unfold boundaryCut at h
  rcases h1 : lastEnd [Char.ofNat 10, Char.ofNat 10] w with _ | j1
  · rw [h1] at h
    simp only at h
    rcases h2 : lastEnd [Char.ofNat 10] w with _ | j2
    · rw [h2] at h
      simp only at h
      rcases h3 : lastEnd [Char.ofNat 46] w with _ | j3
      · rw [h3] at h
        simp only at h
        obtain ⟨hb1, hb2⟩ := lastEnd_bounds h
        exact ⟨by simpa using hb1, hb2⟩
      · rw [h3] at h
        simp only [Option.some.injEq] at h
        subst h
        obtain ⟨hb1, hb2⟩ := lastEnd_bounds h3
        exact ⟨by simpa using hb1, hb2⟩
    · rw [h2] at h
      simp only [Option.some.injEq] at h
      subst h
      obtain ⟨hb1, hb2⟩ := lastEnd_bounds h2
      exact ⟨by simpa using hb1, hb2⟩
  · rw [h1] at h
    simp only [Option.some.injEq] at h
    subst h
    obtain ⟨hb1, hb2⟩ := lastEnd_bounds h1
    have : ([Char.ofNat 10, Char.ofNat 10] : List Char).length = 2 := rfl
    exact ⟨by omega, hb2⟩

theorem cutLen_bounds (s : List Char) : 1 ≤ cutLen s ∧ cutLen s ≤ 500 := by
  unfold cutLen
  rcases hb : boundaryCut (s.take 500) with _ | j
  · show 1 ≤ 500 ∧ (500:Nat) ≤ 500
    omega
  · show 1 ≤ j ∧ j ≤ 500
    obtain ⟨h1, h2⟩ := boundaryCut_bounds hb
    have h3 : (s.take 500).length ≤ 500 := by
      simp [List.length_take]
    exact ⟨h1, le_trans h2 h3⟩

theorem chunksCore_length_le : ∀ (fuel : Nat) (s : List Char),
    ∀ c ∈ chunksCore fuel s, c.length ≤ 500
  | 0, s => by simp [chunksCore]
  | fuel + 1, s => by
    intro c hc
    rw [chunksCore] at hc
    by_cases h0 : s.length = 0
    · rw [if_pos h0] at hc
      simp at hc
    · rw [if_neg h0] at hc
      by_cases hlen : s.length ≤ 500
      · rw [if_pos hlen] at hc
        simp only [List.mem_singleton] at hc
        subst hc
        exact hlen
      · rw [if_neg hlen] at hc
        simp only at hc
        rcases List.mem_cons.mp hc with rfl | hmem
        · exact le_trans (List.length_take_le ..) (cutLen_bounds s).2
        · exact chunksCore_length_le fuel _ c hmem

theorem chunksCore_head? : ∀ (fuel : Nat) (s : List Char), s.length ≤ fuel →
    s ≠ [] → (chunksCore fuel s).head? = some (firstChunk s)
  | 0, s, hf, hne => absurd (List.length_eq_zero.mp (Nat.le_zero.mp hf)) hne
  | fuel + 1, s, hf, hne => by
    have h0 : ¬ s.length = 0 := fun h => hne (List.length_eq_zero.mp h)
    rw [chunksCore]
    simp only [firstChunk]
    rw [if_neg h0]
    by_cases hlen : s.length ≤ 500
    · rw [if_pos hlen, if_pos hlen]
      rfl
    · rw [if_neg hlen, if_neg hlen]
      rfl

theorem chunksCore_chain' : ∀ (fuel : Nat) (s : List Char), s.length ≤ fuel →
    List.Chain' overlapOk (chunksCore fuel s)
  | 0, s, hf => by simp [chunksCore]
  | fuel + 1, s, hf => by
    rw [chunksCore]
    by_cases h0 : s.length = 0
    · rw [if_pos h0]
      simp
    · rw [if_neg h0]
      by_cases hlen : s.length ≤ 500
      · rw [if_pos hlen]
        exact List.chain'_singleton _
      · rw [if_neg hlen]
        simp only
        push_neg at hlen
        obtain ⟨hq1, hq500⟩ := cutLen_bounds s
        have hs2len : (s.drop (cutLen s - min 50 (cutLen s - 1))).length =
            s.length - (cutLen s - min 50 (cutLen s - 1)) := by
          simp [List.length_drop]
        have hfuel2 : (s.drop (cutLen s - min 50 (cutLen s - 1))).length ≤ fuel := by
          rw [hs2len]
          omega
        have hne2 : s.drop (cutLen s - min 50 (cutLen s - 1)) ≠ [] := by
          apply List.ne_nil_of_length_pos
          rw [hs2len]
          omega
        rw [List.chain'_cons']
        refine ⟨?_, chunksCore_chain' fuel _ hfuel2⟩
        intro y hy
        rw [chunksCore_head? fuel _ hfuel2 hne2] at hy
        simp only [Option.mem_def, Option.some.injEq] at hy
        subst hy
        intro h50a h50b
        have hqlen : (s.take (cutLen s)).length = cutLen s := by
          simp only [List.length_take]
          omega
        rw [hqlen] at h50a ⊢
        have ho50 : min 50 (cutLen s - 1) = 50 := by omega
        rw [ho50] at h50b ⊢
        rw [List.drop_take]
        have harith : cutLen s - (cutLen s - 50) = 50 := by omega
        rw [harith]
        simp only [firstChunk] at h50b ⊢
        by_cases h2 : (s.drop (cutLen s - 50)).length ≤ 500
        · rw [if_pos h2]
        · rw [if_neg h2] at h50b ⊢
          have hc2 : 50 ≤ cutLen (s.drop (cutLen s - 50)) := by
            simp only [List.length_take] at h50b
            omega
          have hmin : min 50 (cutLen (s.drop (cutLen s - 50))) = 50 := by
            omega
          rw [List.take_take, hmin]

theorem lastEnd_replicate_none (pat : List Char) (c : Char) (n : Nat)
    (hne : ∀ m : Nat, pat ≠ List.replicate m c) :
    lastEnd pat (List.replicate n c) = none := by
  unfold lastEnd
  rw [List.find?_eq_none]
  intro j hj
  simp only [Bool.and_eq_true, decide_eq_true_eq, not_and]
  intro hlen hc
  rw [List.drop_replicate, List.take_replicate] at hc
  exact hne _ hc.symm

theorem cons_ne_replicate_a {x : Char} (hx : x ≠ Char.ofNat 97) (t : List Char) :
    ∀ m : Nat, x :: t ≠ List.replicate m (Char.ofNat 97)
  | 0, h => by simp at h
  | m + 1, h => by
    rw [List.replicate_succ] at h
    injection h with h1 h2
    exact hx h1

theorem boundaryCut_replicate_a (n : Nat) :
    boundaryCut (List.replicate n (Char.ofNat 97)) = none := by
  unfold boundaryCut
  rw [lastEnd_replicate_none _ _ _ (cons_ne_replicate_a (by decide) _),
    lastEnd_replicate_none _ _ _ (cons_ne_replicate_a (by decide) _),
    lastEnd_replicate_none _ _ _ (cons_ne_replicate_a (by decide) _),
    lastEnd_replicate_none _ _ _ (cons_ne_replicate_a (by decide) _)]

/-! ## Claim theorems -/

/-- C5: for the spec-modelled chunker configured by `build_knowledge_base`
(size 500, overlap 50, separators paragraph / line / sentence dot / space):
every chunk is at most 500 units long; when no preferred boundary exists in
the 500-unit window the chunk is a hard cut of exactly the first 500 units;
and consecutive chunks overlap by exactly the configured 50 units whenever
the neighbouring chunks are wide enough (`overlapOk`). -/
theorem claim_C5_chunk_bounds_and_overlap (s : List Char) :
    (∀ c ∈ chunks s, c.length ≤ 500) ∧
    (500 < s.length → boundaryCut (s.take 500) = none →
      (chunks s).head? = some (s.take 500)) ∧
    List.Chain' overlapOk (chunks s) := by
  refine ⟨fun c hc => chunksCore_length_le s.length s c hc, ?_,
    chunksCore_chain' s.length s (le_refl _)⟩
  intro hlong hnone
  have hne : s ≠ [] := by
    intro h
    subst h
    simp at hlong
  rw [chunks, chunksCore_head? s.length s (le_refl _) hne]
  have hcut : cutLen s = 500 := by
    unfold cutLen
    rw [hnone]
  simp only [firstChunk]
  rw [if_neg (by omega), hcut]

/-- Witness for C5 on a 600-character text with no boundary anywhere: the
hard-cut hypothesis holds and the first chunk is the full 500-unit prefix. -/
theorem claim_C5_chunk_bounds_and_overlap_witness :
    (chunks (List.replicate 600 (Char.ofNat 97))).head? =
      some ((List.replicate 600 (Char.ofNat 97)).take 500) :=
  (claim_C5_chunk_bounds_and_overlap (List.replicate 600 (Char.ofNat 97))).2.1
    (by rw [List.length_replicate]
        norm_num)
    (by rw [List.take_replicate]
        exact boundaryCut_replicate_a _)

/-- C4: every row produced by `load_and_process_campaigns` carries the
`NaN` sentinel (`none`) for `cpa_BRL` when `conversions = 0`, for `roas`
when `spend_BRL = 0` and for `ctr` when `impressions = 0`; the function is
total, so zero division is never raised as an error. -/
theorem claim_C4_zero_division_sentinel (rows : List RawRecord)
    (p : ProcessedRecord) (hp : p ∈ load_and_process_campaigns rows) :
    (p.conversions = 0 → p.cpa_BRL = none) ∧
    (p.spend_BRL = 0 → p.roas = none) ∧
    (p.impressions = 0 → p.ctr = none) := by
  simp only [load_and_process_campaigns, List.mem_map] at hp
  obtain ⟨r, _, rfl⟩ := hp
  refine ⟨?_, ?_, ?_⟩ <;> intro h <;> simp only [deriveMetrics] at h ⊢ <;>
    simp [guardedDiv, h]

/-- Witness for C4 at a concrete all-zero-denominator record. -/
theorem claim_C4_zero_division_sentinel_witness :
    (deriveMetrics zeroDenomRow).cpa_BRL = none ∧
    (deriveMetrics zeroDenomRow).roas = none ∧
    (deriveMetrics zeroDenomRow).ctr = none := by
  have h := claim_C4_zero_division_sentinel [zeroDenomRow]
    (deriveMetrics zeroDenomRow) (by simp [load_and_process_campaigns])
  exact ⟨h.1 rfl, h.2.1 rfl, h.2.2 rfl⟩

/-- C3: every aggregate row of `aggregate_by_channel` carries the column
sums of its channel group, its ratios are recomputed from those totals
(`roas = Σ revenue / Σ spend` when `Σ spend > 0`, and likewise `cpa_BRL`
and `ctr`), and the totals-then-divide rule is not the mean of the per-row
ratios: on the concrete two-row group `exRow1`/`exRow2` the aggregated
`roas` is `7/4` while the mean of the per-row values `4` and `1` is `5/2`. -/
theorem claim_C3_ratios_from_totals (rows : List ProcessedRecord)
    (a : ChannelAggregate) (ha : a ∈ aggregate_by_channel rows) :
    (a.spend_BRL =
        colSum (fun r => r.spend_BRL) (rows.filter (fun r => r.channel = a.channel)) ∧
      a.revenue_BRL =
        colSum (fun r => r.revenue_BRL) (rows.filter (fun r => r.channel = a.channel)) ∧
      a.impressions =
        colSum (fun r => r.impressions) (rows.filter (fun r => r.channel = a.channel)) ∧
      a.clicks =
        colSum (fun r => r.clicks) (rows.filter (fun r => r.channel = a.channel)) ∧
      a.conversions =
        colSum (fun r => r.conversions) (rows.filter (fun r => r.channel = a.channel))) ∧
    ((0 < a.spend_BRL → a.roas = some (a.revenue_BRL / a.spend_BRL)) ∧
      (0 < a.conversions → a.cpa_BRL = some (a.spend_BRL / a.conversions)) ∧
      (0 < a.impressions → a.ctr = some (a.clicks / a.impressions))) ∧
    (∃ b ∈ aggregate_by_channel [exRow1, exRow2],
      exRow1.roas = some 4 ∧ exRow2.roas = some 1 ∧
      b.roas = some (7/4) ∧ b.roas ≠ some ((4 + 1) / 2)) := by
  rcases List.mem_map.mp ha with ⟨ch, hch, rfl⟩
  refine ⟨⟨rfl, rfl, rfl, rfl, rfl⟩, ⟨?_, ?_, ?_⟩, ?_⟩
  · intro h
    have h' : 0 < colSum (fun r => r.spend_BRL)
        (rows.filter (fun r => r.channel = ch)) := h
    simp [setDerived, groupSums, guardedDiv, h']
  · intro h
    have h' : 0 < colSum (fun r => r.conversions)
        (rows.filter (fun r => r.channel = ch)) := h
    simp [setDerived, groupSums, guardedDiv, h']
  · intro h
    have h' : 0 < colSum (fun r => r.impressions)
        (rows.filter (fun r => r.channel = ch)) := h
    simp [setDerived, groupSums, guardedDiv, h']
  · refine ⟨setDerived (groupSums [exRow1, exRow2] "google"), ?_, ?_, ?_, ?_, ?_⟩
    · norm_num [aggregate_by_channel, groupKeys, distinctKeys, sortKeys,
        insertKey, exRow1, exRow2, deriveMetrics]
    · norm_num [exRow1, deriveMetrics, guardedDiv]
    · norm_num [exRow2, deriveMetrics, guardedDiv]
    · norm_num [setDerived, groupSums, colSum, guardedDiv, exRow1, exRow2,
        deriveMetrics]
    · norm_num [setDerived, groupSums, colSum, guardedDiv, exRow1, exRow2,
        deriveMetrics]

/-- Witness for C3 at the concrete two-row group. -/
theorem claim_C3_ratios_from_totals_witness :
    ∃ b ∈ aggregate_by_channel [exRow1, exRow2],
      b.spend_BRL = 400 ∧ b.revenue_BRL = 700 ∧ b.roas = some (7/4) := by
  have h := claim_C3_ratios_from_totals [exRow1, exRow2]
    (setDerived (groupSums [exRow1, exRow2] "google"))
    (by norm_num [aggregate_by_channel, groupKeys, distinctKeys, sortKeys,
      insertKey, exRow1, exRow2, deriveMetrics])
  refine ⟨setDerived (groupSums [exRow1, exRow2] "google"),
    by norm_num [aggregate_by_channel, groupKeys, distinctKeys, sortKeys,
      insertKey, exRow1, exRow2, deriveMetrics], ?_, ?_, ?_⟩
  · norm_num [setDerived, groupSums, colSum, exRow1, exRow2, deriveMetrics]
  · norm_num [setDerived, groupSums, colSum, exRow1, exRow2, deriveMetrics]
  · have hs : (0:Rat) <
        (setDerived (groupSums [exRow1, exRow2] "google")).spend_BRL := by
      norm_num [setDerived, groupSums, colSum, exRow1, exRow2, deriveMetrics]
    have := h.2.1.1 hs
    rw [this]
    norm_num [setDerived, groupSums, colSum, exRow1, exRow2, deriveMetrics]

/-- C6: on an empty aggregate table, and on one where every row's `roas` is
the `NaN` sentinel, `get_best_channel_by_roas` reports an error (pandas
raises from `idxmax`), never a silent default value. -/
theorem claim_C6_degenerate_input_error (rows : List ChannelAggregate)
    (h : rows = [] ∨ ∀ a ∈ rows, a.roas = none) :
    ∃ e, get_best_channel_by_roas rows = .error e := by
  have hnone : idxmax (rows.map (fun r => r.roas)) = none := by
    apply idxmax_none_iff.mpr
    intro x hx
    rcases List.mem_map.mp hx with ⟨a, hamem, rfl⟩
    rcases h with rfl | hall
    · simp at hamem
    · exact hall a hamem
  refine ⟨"attempt to get argmax of an empty sequence", ?_⟩
  simp [get_best_channel_by_roas, hnone]

/-- Witness for C6: the empty table and a concrete all-sentinel table both
yield errors. -/
theorem claim_C6_degenerate_input_error_witness :
    (∃ e, get_best_channel_by_roas [] = .error e) ∧
    (∃ e, get_best_channel_by_roas
      [⟨"Meta", 0, 0, 0, 0, 0, none, none, none⟩] = .error e) :=
  ⟨claim_C6_degenerate_input_error [] (Or.inl rfl),
   claim_C6_degenerate_input_error _ (Or.inr (by decide))⟩

/-- C9: when `get_best_channel_by_roas` succeeds it returns the channel and
value of the first row (in table order) attaining the maximum defined
`roas`: no earlier row attains the returned value, every defined `roas` is
at most the returned value, and `NaN` rows are skipped. -/
theorem claim_C9_first_occurrence_tiebreak (rows : List ChannelAggregate)
    (ch : String) (v : Rat)
    (h : get_best_channel_by_roas rows = .ok (ch, v)) :
    ∃ (i : Nat) (best : ChannelAggregate),
      rows[i]? = some best ∧ best.channel = ch ∧ best.roas = some v ∧
      (∀ (k : Nat) (b : ChannelAggregate) (w : Rat),
        rows[k]? = some b → b.roas = some w → w ≤ v) ∧
      (∀ (k : Nat), k < i → ∀ b : ChannelAggregate,
        rows[k]? = some b → b.roas ≠ some v) := by
  rw [get_best_channel_by_roas] at h
  rcases hidx : idxmax (rows.map (fun r => r.roas)) with _ | ⟨i, w⟩
  · rw [hidx] at h; simp at h
  · rw [hidx] at h
    simp only at h
    rcases hrow : rows[i]? with _ | best
    · rw [hrow] at h; simp at h
    · rw [hrow] at h
      simp only [Except.ok.injEq, Prod.mk.injEq] at h
      obtain ⟨rfl, rfl⟩ := h
      obtain ⟨h1, h2, h3⟩ := idxmax_spec hidx
      rw [List.getElem?_map, hrow] at h1
      simp only [Option.map_some', Option.some.injEq] at h1
      refine ⟨i, best, hrow, rfl, h1, ?_, ?_⟩
      · intro k b w0 hk hb
        apply h2 k w0
        rw [List.getElem?_map, hk]
        simp [hb]
      · intro k hk b hkb hc
        apply h3 k hk
        rw [List.getElem?_map, hkb]
        simp [hc]

/-- Witness for C9: a concrete table with a two-way tie at the maximum; the
first of the tied rows is returned. -/
theorem claim_C9_first_occurrence_tiebreak_witness :
    ∃ (i : Nat) (best : ChannelAggregate),
      (tieTable)[i]? = some best ∧ best.channel = "B" ∧ best.roas = some 5 ∧
      (∀ (k : Nat) (b : ChannelAggregate) (w : Rat),
        tieTable[k]? = some b → b.roas = some w → w ≤ 5) ∧
      (∀ (k : Nat), k < i → ∀ b : ChannelAggregate,
        tieTable[k]? = some b → b.roas ≠ some 5) :=
  claim_C9_first_occurrence_tiebreak tieTable "B" 5
    (by norm_num [get_best_channel_by_roas, tieTable, idxmax])

/-- C2: `retrieve` (and therefore `answer`) on a freshly constructed
`MarketingRAG` fails with the uninitialized-vectorstore `ValueError`, for
every query and every `k`; after any `build_knowledge_base` or any
`load_existing_knowledge_base`, `retrieve` succeeds and in particular never
raises that error again. -/
theorem claim_C2_retrieve_requires_initialization (p q : String) (k : Nat) :
    retrieve (MarketingRAG.mkInitial p) q k =
      .error "Vectorstore nao inicializado. Chame build_knowledge_base ou load_existing_knowledge_base primeiro." ∧
    answer (MarketingRAG.mkInitial p) q k =
      .error "Vectorstore nao inicializado. Chame build_knowledge_base ou load_existing_knowledge_base primeiro." ∧
    (∀ (fromDocs : List Document → VectorStore) (m : MarketingRAG)
      (texts : List String) (metas : Option (List Metadata)),
      ∃ r, retrieve (build_knowledge_base fromDocs m texts metas) q k = .ok r) ∧
    (∀ (env : ChromaEnv) (m : MarketingRAG),
      ∃ r, retrieve (load_existing_knowledge_base env m) q k = .ok r) := by
  refine ⟨rfl, rfl, ?_, ?_⟩
  · intro fromDocs m texts metas
    exact ⟨_, rfl⟩
  · intro env m
    exact ⟨_, rfl⟩

/-- C1 counterexample: with nothing persisted anywhere,
`load_existing_knowledge_base` does not fail — it returns normally and sets
the vectorstore to a freshly created empty store, exactly what the claim
says must not happen. -/
theorem claim_C1_counterexample :
    load_existing_knowledge_base envNoPersist (MarketingRAG.mkInitial "chroma_db") =
      { persist_directory := "chroma_db",
        vectorstore := some emptyVectorStore } := rfl

/-- C1 amended: for every persist location at which no prior index has been
persisted, `load_existing_knowledge_base` succeeds and yields a freshly
created empty store; the code performs no existence check and has no
IndexNotFound failure path. -/
theorem claim_C1_load_succeeds_on_missing_index (env : ChromaEnv)
    (m : MarketingRAG) (h : env.persisted m.persist_directory = none) :
    (load_existing_knowledge_base env m).vectorstore = some emptyVectorStore := by
  simp [load_existing_knowledge_base, chromaOpen, h]

/-- Witness for the amended C1 at a concrete empty environment. -/
theorem claim_C1_load_succeeds_on_missing_index_witness :
    (load_existing_knowledge_base envNoPersist
      (MarketingRAG.mkInitial "chroma_db")).vectorstore = some emptyVectorStore :=
  claim_C1_load_succeeds_on_missing_index envNoPersist
    (MarketingRAG.mkInitial "chroma_db") rfl

/-- C7 counterexample: two stores that return the same ranked documents with
different similarity scores produce identical `answer` outputs, so the
response cannot contain the similarity scores (nor any structured ranked
list); `answer` is a plain string. -/
theorem claim_C7_counterexample :
    storeHighScore.search "best roas channel" 4 ≠
      storeLowScore.search "best roas channel" 4 ∧
    answer ragHigh "best roas channel" 4 = answer ragLow "best roas channel" 4 := by
  constructor
  · intro hc
    have : ((9:Rat)/10) = 1/10 := by
      have := congrArg (fun l => (l.headD (exDoc, 0)).2) hc
      simpa [storeHighScore, storeLowScore] using this
    norm_num at this
  · rfl

/-- C7 amended: whenever the vectorstore is initialized, `answer` succeeds
and returns one plain string built from the original query and the
retrieved chunk texts concatenated in ranked order with the separator,
plus fixed framing text; similarity scores appear nowhere in it. -/
theorem claim_C7_answer_is_plain_context_string (m : MarketingRAG)
    (vs : VectorStore) (q : String) (k : Nat) (h : m.vectorstore = some vs) :
    answer m q k = .ok ("Pergunta: " ++ q ++ "\n\n" ++
      "Contexto relevante encontrado:\n" ++
      String.intercalate "\n---\n"
        ((similarity_search vs q k).map (fun d => d.page_content)) ++
      "\n\n" ++ resumoText) := by
  simp [answer, retrieve, h, Except.map]

/-- Witness for the amended C7 on a concrete store and query. -/
theorem claim_C7_answer_is_plain_context_string_witness :
    answer ragHigh "best roas channel" 4 = .ok ("Pergunta: best roas channel" ++
      "\n\n" ++ "Contexto relevante encontrado:\n" ++
      "google ads performance" ++ "\n\n" ++ resumoText) := by
  have h := claim_C7_answer_is_plain_context_string ragHigh storeHighScore
    "best roas channel" 4 rfl
  rw [h]
  rfl

/-- C8: in `build_knowledge_base`, `zip(texts, metadatas)` silently truncates
to the shorter list, so when fewer metadata dicts than texts are given the
excess texts are never chunked or indexed and no error is raised; with
`metadatas=None`, every text is chunked and indexed with empty metadata. -/
theorem claim_C8_zip_truncation (fromDocs : List Document → VectorStore)
    (m : MarketingRAG) (texts : List String) (metas : List Metadata)
    (h : metas.length < texts.length) :
    build_knowledge_base fromDocs m texts (some metas) =
      build_knowledge_base fromDocs m (texts.take metas.length) (some metas) ∧
    (∀ ts : List String, buildDocs ts none =
      ts.flatMap (fun t => (split_text t).map
        (fun c => { page_content := c, metadata := [] }))) := by
  constructor
  · have hz : texts.zip metas = (texts.take metas.length).zip metas :=
      zip_eq_zip_take (le_of_lt h)
    simp only [build_knowledge_base, buildDocs, hz]
  · intro ts
    simp only [buildDocs, zip_self_map]
    rw [flatMap_map_comp]

/-- Witness for C8: three texts, one metadata dict — only the first text is
indexed. -/
theorem claim_C8_zip_truncation_witness :
    build_knowledge_base (fun _ => emptyVectorStore)
      (MarketingRAG.mkInitial "chroma_db") ["a", "b", "c"] (some [[("k", "v")]]) =
    build_knowledge_base (fun _ => emptyVectorStore)
      (MarketingRAG.mkInitial "chroma_db") ["a"] (some [[("k", "v")]]) := by
  have h := claim_C8_zip_truncation (fun _ => emptyVectorStore)
    (MarketingRAG.mkInitial "chroma_db") ["a", "b", "c"] [[("k", "v")]]
    (by simp)
  simpa using h.1

/-- The three in-place column assignments of `aggregate_by_channel` compose
to the full derived-metrics recomputation. -/
theorem set_cols_eq_setDerived (L : List ChannelAggregate) :
    setCtrCol (setRoasCol (setCpaCol L)) = L.map setDerived := by
  simp only [setCpaCol, setRoasCol, setCtrCol, List.map_map]
  rfl

/-- An in-place column assignment on a reference known to hold an aggregated
frame is a store update at that reference. -/
theorem updateAggs_of_read {st : FrameStore} {r : Nat}
    {L : List ChannelAggregate} (h : readFrame st r = some (.aggs L))
    (f : List ChannelAggregate → List ChannelAggregate) :
    updateAggs st r f = st.set r (.aggs (f L)) := by
  simp only [updateAggs, h]

/-- C10: replaying the statement sequence of `aggregate_by_channel` against
an explicit store of heap-allocated DataFrames shows it is a pure transform
of its argument: `groupby(...).agg(...).reset_index()` allocates a fresh
frame and all three derived-column assignments write only to that fresh
frame, so the caller's frame (and every row and derived metric in it) is
unchanged, while the returned reference holds exactly the aggregation
result of the pure model. -/
theorem claim_C10_input_frame_unchanged (st : FrameStore) (dfRef : Nat)
    (l : List ProcessedRecord) (h : readFrame st dfRef = some (.rows l)) :
    readFrame (aggregate_by_channel_prog st dfRef).1 dfRef = some (.rows l) ∧
    readFrame (aggregate_by_channel_prog st dfRef).1
        (aggregate_by_channel_prog st dfRef).2 =
      some (.aggs (aggregate_by_channel l)) := by
  have hlt : dfRef < st.length := (List.getElem?_eq_some.mp h).1
  have hne : dfRef ≠ st.length := Nat.ne_of_lt hlt
  set L0 : List ChannelAggregate := (groupKeys l).map (groupSums l) with hL0
  have hlen1 : st.length < (st ++ [Frame.aggs L0]).length := by simp
  have hstep : aggregate_by_channel_prog st dfRef =
      (updateAggs (updateAggs (updateAggs (st ++ [Frame.aggs L0])
        st.length setCpaCol) st.length setRoasCol) st.length setCtrCol,
       st.length) := by
    rw [aggregate_by_channel_prog, h]
    rfl
  have u1 : updateAggs (st ++ [Frame.aggs L0]) st.length setCpaCol =
      (st ++ [Frame.aggs L0]).set st.length (.aggs (setCpaCol L0)) :=
    updateAggs_of_read (List.getElem?_concat_length ..) _
  have r2 : readFrame ((st ++ [Frame.aggs L0]).set st.length
      (.aggs (setCpaCol L0))) st.length = some (.aggs (setCpaCol L0)) :=
    List.getElem?_set_self hlen1
  have u2 := updateAggs_of_read r2 setRoasCol
  rw [List.set_set] at u2
  have r3 : readFrame ((st ++ [Frame.aggs L0]).set st.length
      (.aggs (setRoasCol (setCpaCol L0)))) st.length =
      some (.aggs (setRoasCol (setCpaCol L0))) :=
    List.getElem?_set_self hlen1
  have u3 := updateAggs_of_read r3 setCtrCol
  rw [List.set_set] at u3
  have hprog : aggregate_by_channel_prog st dfRef =
      ((st ++ [Frame.aggs L0]).set st.length
        (.aggs (setCtrCol (setRoasCol (setCpaCol L0)))), st.length) := by
    rw [hstep, u1, u2, u3]
  rw [hprog]
  constructor
  · simp only [readFrame]
    rw [List.getElem?_set_ne (Ne.symm hne), List.getElem?_append_left hlt]
    simp only [readFrame] at h
    exact h
  · simp only [readFrame]
    rw [List.getElem?_set_self hlen1, set_cols_eq_setDerived]
    have hagg : L0.map setDerived = aggregate_by_channel l := by
      rw [hL0, List.map_map]
      rfl
    rw [hagg]

/-- Witness for C10 at a concrete one-frame store. -/
theorem claim_C10_input_frame_unchanged_witness :
    readFrame (aggregate_by_channel_prog [Frame.rows [exRow1, exRow2]] 0).1 0 =
      some (.rows [exRow1, exRow2]) ∧
    readFrame (aggregate_by_channel_prog [Frame.rows [exRow1, exRow2]] 0).1
        (aggregate_by_channel_prog [Frame.rows [exRow1, exRow2]] 0).2 =
      some (.aggs (aggregate_by_channel [exRow1, exRow2])) :=
  claim_C10_input_frame_unchanged [Frame.rows [exRow1, exRow2]] 0
    [exRow1, exRow2] rfl

end MarketingRag
